import Mathlib

/-!
Shallow embedding of the core analysis pipeline of the codebase-analyzer
repository: component classification (src/analyzers/components.py),
business-logic filtering (src/parsers/java_parser.py), statistics
(src/analyzers/statistics.py), complexity aggregation
(src/analyzers/complexity.py), key-method extraction
(src/utils/method_extractor.py) and aspect identification
(src/analyzers/aspects.py), together with theorems settling the frozen
claims about them.

Modelling conventions:
* Python strings are Lean `String`s; substring tests (`"x" in s`) are via
  `pyIn` over the character lists.
* Python `Optional[T]` is `Option T`; Python float complexity scores are
  modelled as `ℚ` (the claims under scrutiny do not depend on IEEE-754
  rounding, only on presence, truthiness, ordering against small integer
  thresholds, and exact collection behaviour).
* Python dicts are association lists in insertion order, with
  update-or-append insertion, exactly as CPython preserves key order.
* The external LLM ("narrative service") is an oracle function argument;
  `none` models both a raised exception and an absent client, matching the
  `try/except` sites in the source.
-/

namespace CodebaseAnalyzer

/-- `sub` occurs as a contiguous segment of `l` (empty `sub` always does). -/
def hasInfix (sub : List Char) : List Char → Bool
  | [] => sub.isEmpty
  | c :: rest => sub.isPrefixOf (c :: rest) || hasInfix sub rest

/-- Python `sub in s` substring containment on strings. -/
def pyIn (sub s : String) : Bool := hasInfix sub.data s.data

/-- Python `s.startswith(pre)` (character-list based, so that concrete
instances evaluate by kernel reduction). -/
def pyStartsWith (s pre : String) : Bool := pre.data.isPrefixOf s.data

/-- Characters Python `str.strip()` removes: space, tab, newline, carriage
return, vertical tab, form feed. -/
def isPySpace (c : Char) : Bool :=
  c = ' ' || c = '\t' || c = '\n' || c = '\r' ||
  c = Char.ofNat 11 || c = Char.ofNat 12

/-- Python `str.strip()` on a character list: drop whitespace from both ends. -/
def pyStrip (s : List Char) : List Char :=
  ((s.dropWhile isPySpace).reverse.dropWhile isPySpace).reverse

/-- Python `str.strip(chars)`: drop any characters of `cs` from both ends. -/
def pyStripChars (cs : List Char) (s : List Char) : List Char :=
  ((s.dropWhile (cs.contains ·)).reverse.dropWhile (cs.contains ·)).reverse

/-- Python `str.split('\n')` semantics on a character list:
`"".split` gives `[""]`, a trailing newline yields a final empty field. -/
def splitNl : List Char → List (List Char)
  | [] => [[]]
  | c :: rest =>
    if c = '\n' then [] :: splitNl rest
    else
      match splitNl rest with
      | [] => [[c]]
      | l :: ls => (c :: l) :: ls

/-- Python `str.lower()` (the names involved are ASCII). -/
def pyLower (s : String) : String := String.mk (s.data.map Char.toLower)

/-! ## Data model (src/models.py) -/

/-- `MethodInfo` from src/models.py (fields the core reads). -/
structure MethodInfo where
  name : String
  signature : String
  description : Option String := none
  return_type : Option String := none
  complexity : Option ℚ := none
  annotations : List String := []
  is_business_logic : Bool := true
deriving Repr, DecidableEq

/-- `ClassInfo` from src/models.py. -/
structure ClassInfo where
  name : String
  package : Option String := none
  description : Option String := none
  annotations : List String := []
  methods : List MethodInfo := []
deriving Repr, DecidableEq

/-- `FileInfo` from src/models.py. -/
structure FileInfo where
  file_path : String
  file_type : String
  package : Option String := none
  imports : List String := []
  classes : List ClassInfo := []
  total_lines : Nat := 0
  code_lines : Nat := 0
  comment_lines : Nat := 0
  complexity : Option ℚ := none
deriving Repr, DecidableEq

/-- `KeyMethodSummary` from src/models.py. -/
structure KeyMethodSummary where
  class_name : String
  method_name : String
  signature : String
  description : Option String := none
  annotations : List String := []
  component_type : Option String := none
deriving Repr, DecidableEq

/-! ## Component classifier (src/analyzers/components.py)

The Python implementation keeps a dict with five fixed keys and appends
each class name to the list of the first matching branch of an
`if/elif` chain.  The dict is an association list here; `updateAssoc`
appends one name to the value of an existing key, which is all
`components[key].append(name)` ever does. -/

/-- Append `name` to the list stored at the (present) key `key`. -/
def updateAssoc : List (String × List String) → String → String → List (String × List String)
  | [], _, _ => []
  | (k, v) :: rest, key, name =>
    if k = key then (k, v ++ [name]) :: rest
    else (k, v) :: updateAssoc rest key name

/-- The initial five-key component dict of `ComponentAnalyzer.identify`. -/
def initComponents : List (String × List String) :=
  [("controllers", []), ("services", []), ("repositories", []),
   ("entities", []), ("configurations", [])]

/-- One class of one file through the `if/elif` chain of
`ComponentAnalyzer.identify` (src/analyzers/components.py lines 32-41).
`pkg` is the containing file's package; `file.package and "entities" in
file.package` is falsy when the package is `None` (an empty string does not
contain `"entities"`, so collapsing both falsy cases to `none`-vs-`some` is
exact). -/
def classifyStep (pkg : Option String) (m : List (String × List String))
    (cls : ClassInfo) : List (String × List String) :=
  if pyIn "Controller" cls.name || cls.annotations.contains "Controller" then
    updateAssoc m "controllers" cls.name
  else if pyIn "Service" cls.name || cls.annotations.contains "Service" then
    updateAssoc m "services" cls.name
  else if pyIn "Repository" cls.name || cls.annotations.contains "Repository" then
    updateAssoc m "repositories" cls.name
  else if cls.annotations.contains "Entity" ||
      (match pkg with | some p => pyIn "entities" p | none => false) then
    updateAssoc m "entities" cls.name
  else if cls.annotations.contains "Configuration" || pyIn "Config" cls.name then
    updateAssoc m "configurations" cls.name
  else m

/-- `ComponentAnalyzer.identify`: fold every class of every file through the
classification chain, starting from the five empty buckets. -/
def identifyComponents (files : List FileInfo) : List (String × List String) :=
  files.foldl (fun m file => file.classes.foldl (classifyStep file.package) m)
    initComponents

/-! Spec-side view of the classifier (§4.1): an ordered list of role
predicates, first match wins, a class matching none is omitted.  Used to
state C1 as a refinement of the `if/elif` chain above. -/

/-- The five architectural roles, in the order the spec lists them. -/
inductive Role where
  | controllers | services | repositories | entities | configurations
deriving Repr, DecidableEq

/-- The dict key each role's classes are stored under. -/
def Role.key : Role → String
  | .controllers => "controllers"
  | .services => "services"
  | .repositories => "repositories"
  | .entities => "entities"
  | .configurations => "configurations"

/-- The role predicates of §4.1, verbatim from the spec's conditions. -/
def rolePred (pkg : Option String) (cls : ClassInfo) : Role → Bool
  | .controllers => pyIn "Controller" cls.name || cls.annotations.contains "Controller"
  | .services => pyIn "Service" cls.name || cls.annotations.contains "Service"
  | .repositories => pyIn "Repository" cls.name || cls.annotations.contains "Repository"
  | .entities => cls.annotations.contains "Entity" ||
      (match pkg with | some p => pyIn "entities" p | none => false)
  | .configurations => cls.annotations.contains "Configuration" || pyIn "Config" cls.name

/-- Spec ordering of the predicates: controllers, services, repositories,
entities, configurations. -/
def roleOrder : List Role :=
  [.controllers, .services, .repositories, .entities, .configurations]

/-- First matching role in spec order, `none` when no predicate matches. -/
def classifyFirst (pkg : Option String) (cls : ClassInfo) : Option Role :=
  roleOrder.find? (rolePred pkg cls)

/-- Spec-side per-class step: append the class name to the bucket of its
first matching role; drop the class when no role matches. -/
def specStep (pkg : Option String) (m : List (String × List String))
    (cls : ClassInfo) : List (String × List String) :=
  match classifyFirst pkg cls with
  | some r => updateAssoc m r.key cls.name
  | none => m

/-- Spec-side classifier: assign every class occurrence, in traversal order,
to the bucket of its first matching role. -/
def specIdentify (files : List FileInfo) : List (String × List String) :=
  files.foldl (fun m file => file.classes.foldl (specStep file.package) m)
    initComponents

/-- Total number of class-name entries across all buckets of a component map. -/
def totalEntries (m : List (String × List String)) : Nat :=
  (m.map (fun kv => kv.2.length)).sum

/-- Number of class occurrences of `files` matched by some role predicate. -/
def classifiedCount (files : List FileInfo) : Nat :=
  (files.map (fun f =>
    (f.classes.filter (fun c => (classifyFirst f.package c).isSome)).length)).sum

/-! ## Business-logic filter (src/parsers/java_parser.py, lines 134-162) -/

/-- The fixed utility-method name set of `_is_business_logic_method`. -/
def utilityMethods : List String :=
  ["equals", "hashCode", "toString", "clone", "finalize"]

/-- The fixed business-annotation set of `_is_business_logic_method`. -/
def businessAnnotations : List String :=
  ["PostMapping", "GetMapping", "PutMapping", "DeleteMapping",
   "RequestMapping", "Service", "Transactional", "Async"]

/-- The fixed business-keyword set of `_is_business_logic_method`. -/
def businessKeywords : List String :=
  ["create", "update", "delete", "save", "find", "search",
   "process", "calculate", "validate", "authenticate",
   "authorize", "send", "receive", "fetch", "load", "rent"]

/-- `JavaCodeParser._is_business_logic_method`: the ordered early-return
chain of src/parsers/java_parser.py lines 137-162. -/
def isBusinessLogicMethod (name : String) (annotations : List String)
    (paramCount : Nat) : Bool :=
  if pyStartsWith name "get" && paramCount == 0 then false
  else if pyStartsWith name "set" && paramCount == 1 then false
  else if pyStartsWith name "is" && paramCount == 0 then false
  else if utilityMethods.contains name then false
  else if annotations.any (businessAnnotations.contains ·) then true
  else if businessKeywords.any (fun k => pyIn k (pyLower name)) then true
  else false

/-! ## Statistics aggregator (src/analyzers/statistics.py, lines 21-55) -/

/-- Python `d[k] = d.get(k, 0) + 1` on an insertion-ordered dict. -/
def dictIncr : List (String × Nat) → String → List (String × Nat)
  | [], k => [(k, 1)]
  | (a, n) :: rest, k =>
    if a = k then (a, n + 1) :: rest else (a, n) :: dictIncr rest k

/-- The dictionary `StatisticsAnalyzer.calculate` returns, as a record. -/
structure StatsSummary where
  total_files : Nat
  total_lines : Nat
  total_code_lines : Nat
  total_classes : Nat
  total_methods : Nat
  file_types : List (String × Nat)
  average_file_size : Nat
  average_methods_per_class : Nat
deriving Repr, DecidableEq

/-- `StatisticsAnalyzer.calculate`: totals, the business-logic-only method
count, the file-type histogram, and the two guarded integer-division
averages (src/analyzers/statistics.py lines 30-55). -/
def calculate (files : List FileInfo) : StatsSummary :=
  let total_files := files.length
  let total_lines := (files.map (fun f => f.total_lines)).sum
  let total_code_lines := (files.map (fun f => f.code_lines)).sum
  let total_classes := (files.map (fun f => f.classes.length)).sum
  let total_methods := (files.map (fun f =>
    (f.classes.map (fun c =>
      (c.methods.filter (fun m => m.is_business_logic)).length)).sum)).sum
  let file_types := files.foldl (fun d f => dictIncr d f.file_type) []
  { total_files := total_files
    total_lines := total_lines
    total_code_lines := total_code_lines
    total_classes := total_classes
    total_methods := total_methods
    file_types := file_types
    average_file_size := if total_files > 0 then total_lines / total_files else 0
    average_methods_per_class :=
      if total_classes > 0 then total_methods / total_classes else 0 }

/-! ## Complexity aggregator (src/analyzers/complexity.py, lines 18-55)

`analyze` either returns the `{"message": "No complexity data available"}`
marker or a metrics dict; `CxSummary` is that union.  The narrative oracle
takes the computed metrics and returns `some` interpretation or `none`
(covering both an exception inside `_get_llm_interpretation` and a falsy
response).  `analyze` additionally reports how many narrative-service
invocations it performed, so that "does not invoke the narrative service"
is a provable statement. -/

/-- The numeric part of a complexity summary. -/
structure CxMetrics where
  average_complexity : ℚ
  max_complexity : ℚ
  min_complexity : ℚ
  high_complexity_files : List String
deriving Repr, DecidableEq

/-- Result of `ComplexityAnalyzer.analyze`: the distinct "no data" marker,
or metrics with an optional narrative interpretation. -/
inductive CxSummary where
  | noData
  | metrics (m : CxMetrics) (interpretation : Option String)
deriving Repr, DecidableEq

/-- The list comprehension `[f.complexity for f in files if f.complexity]`
(src/analyzers/complexity.py line 28): Python truthiness keeps a value only
when it is present AND non-zero. -/
def collectComplexities (files : List FileInfo) : List ℚ :=
  (files.filter (fun f => match f.complexity with
    | some c => c ≠ 0
    | none => false)).filterMap (fun f => f.complexity)

/-- `ComplexityAnalyzer.analyze`; the second component counts narrative
(LLM) invocations.  `llm = none` models `llm_analyzer is None`; when present,
the oracle maps the metrics to an optional interpretation (`none` for a
failed or empty `_get_llm_interpretation`). -/
def analyzeComplexity (files : List FileInfo)
    (llm : Option (CxMetrics → Option String)) : CxSummary × Nat :=
  match collectComplexities files with
  | [] => (CxSummary.noData, 0)
  | c :: cs =>
    let avg := (c :: cs).sum / ((c :: cs).length : ℚ)
    let mx := cs.foldl max c
    let mn := cs.foldl min c
    let high := (files.filter (fun f => match f.complexity with
      | some x => x ≠ 0 && x > 10
      | none => false)).map (fun f => f.file_path)
    let m : CxMetrics :=
      { average_complexity := avg, max_complexity := mx
        min_complexity := mn, high_complexity_files := high }
    match llm with
    | some oracle => (CxSummary.metrics m (oracle m), 1)
    | none => (CxSummary.metrics m none, 0)

/-! ## Key-method extractor (src/utils/method_extractor.py, lines 22-80)

`extract` first inverts the component map into `component_type_map`
(a Python dict, so a later occurrence of the same class name overwrites an
earlier one), then walks files/classes/methods in order, keeping only
business-logic methods of classes mapped to `controllers` or `services`,
and calls `generate_method_description` per kept method inside
`try/except`.  The describe oracle takes (signature, class name,
annotations) and returns `none` when the call raises. -/

/-- Python dict assignment `d[k] = v`: overwrite in place or append. -/
def dictPut : List (String × String) → String → String → List (String × String)
  | [], k, v => [(k, v)]
  | (a, b) :: rest, k, v =>
    if a = k then (k, v) :: rest else (a, b) :: dictPut rest k v

/-- Python dict lookup `d.get(k)` on an insertion-ordered dict. -/
def dictGet : List (String × String) → String → Option String
  | [], _ => none
  | (a, b) :: rest, k => if a = k then some b else dictGet rest k

/-- The `component_type_map` construction of `MethodExtractor.extract`
(lines 37-40): for each (role, names) entry in order, assign each name to
that role; a Python dict assignment lets a later entry overwrite. -/
def buildTypeMap (comps : List (String × List String)) : List (String × String) :=
  comps.foldl (fun m kv =>
    kv.2.foldl (fun m name => dictPut m name kv.1) m) []

/-- The narrative describe-method oracle: signature, class name,
annotations ↦ optional description (`none` = the call raised). -/
def DescOracle := String → String → List String → Option String

/-- `MethodExtractor.extract` (lines 44-80): traversal in file, class,
method order; classes whose mapped component type is not `controllers` or
`services` are skipped, non-business-logic methods are skipped, and each
emitted summary carries the oracle's (possibly absent) description. -/
def extractKeyMethods (files : List FileInfo)
    (comps : List (String × List String)) (llm : DescOracle) :
    List KeyMethodSummary :=
  let typeMap := buildTypeMap comps
  files.flatMap (fun file =>
    file.classes.flatMap (fun cls =>
      let component_type := dictGet typeMap cls.name
      if component_type = some "controllers" ∨ component_type = some "services" then
        cls.methods.flatMap (fun method =>
          if method.is_business_logic then
            [{ class_name := cls.name
               method_name := method.name
               signature := method.signature
               description := llm method.signature cls.name method.annotations
               annotations := method.annotations
               component_type := component_type }]
          else [])
      else []))

/-- Spec-side role of a class name in a ComponentMap: the role whose bucket
contains the name (the first such bucket, which is unique for well-formed
maps). -/
def roleIn : List (String × List String) → String → Option String
  | [], _ => none
  | kv :: rest, name =>
    if kv.2.contains name then some kv.1 else roleIn rest name

/-- A ComponentMap is well formed when no class name occurs in two distinct
entries (§3: a class name appears under at most one role). -/
def WellFormedComponents (comps : List (String × List String)) : Prop :=
  ∀ p ∈ comps, ∀ q ∈ comps, ∀ n ∈ p.2, n ∈ q.2 → p = q

/-- Spec-side extractor (§4.5): emit one summary per business-logic method
of each class whose role in the map is `controllers` or `services`, in
file, class, method order. -/
def specExtract (files : List FileInfo)
    (comps : List (String × List String)) (llm : DescOracle) :
    List KeyMethodSummary :=
  files.flatMap (fun file =>
    file.classes.flatMap (fun cls =>
      let role := roleIn comps cls.name
      if role = some "controllers" ∨ role = some "services" then
        (cls.methods.filter (fun m => m.is_business_logic)).map (fun method =>
          { class_name := cls.name
            method_name := method.name
            signature := method.signature
            description := llm method.signature cls.name method.annotations
            annotations := method.annotations
            component_type := role })
      else []))

/-! ## Aspect identifier (src/analyzers/aspects.py)

The narrative path parses the raw LLM response (lines 105-109); the
fallback is the deterministic rule chain of `_rule_based_analysis`
(lines 132-199).  The rule-based observations are modelled as a tagged
type `Obs` carrying the numeric payloads each observation string embeds;
the f-string rendering of those payloads is presentation only (and for the
`:.1f`-formatted float averages not faithfully embeddable anyway), while
every condition, payload and the order of appends follow the source.  A
narrative line is wrapped as `Obs.llmLine`, so one list type covers both
mutually exclusive paths exactly as the Python `List[str]` does. -/

/-- Characters stripped by `line.strip('- ')` (line 107). -/
def bulletChars : List Char := ['-', ' ']

/-- The response parsing of `_get_llm_insights` lines 107-109: split the
stripped response on newlines, keep lines that are non-blank and do not
start (after whitespace-stripping) with `#`, strip bullet characters and
whitespace, and keep only results longer than 20 characters. -/
def parseResponse (response : String) : List String :=
  let lines := splitNl (pyStrip response.data)
  let aspects := (lines.filter (fun line =>
      !(pyStrip line).isEmpty && !((pyStrip line).head? == some '#'))).map
    (fun line => pyStrip (pyStripChars bulletChars line))
  (aspects.filter (fun a => decide (20 < a.length))).map String.mk

/-- The parsing as claim C8 words it: every split line is bullet- and
whitespace-stripped, and a resulting line is discarded exactly when it is
shorter than 20 characters. -/
def claimParse (response : String) : List String :=
  (((splitNl (pyStrip response.data)).map
    (fun line => pyStrip (pyStripChars bulletChars line))).filter
    (fun a => decide (20 ≤ a.length))).map String.mk

/-- `_get_llm_insights` (lines 58-115): `none` models a raised exception or
an absent/falsy `_query_llm` response; a truthy response is parsed. -/
def getLLMInsights (resp : Option String) : Option (List String) :=
  match resp with
  | none => none
  | some r => if r ≠ "" then some (parseResponse r) else none

/-- One aspect observation: the rule-based notes with their numeric
payloads, or a line of narrative output. -/
inductive Obs where
  | mvcArchitecture (controllers services : Nat)
  | entityCount (entities : Nat)
  | lowComplexity (avg : ℚ)
  | highComplexityAvg (avg : ℚ)
  | highComplexityFiles (count : Nat)
  | compactCodebase (lines : Nat)
  | largeCodebase (lines : Nat)
  | fewMethodsPerClass (avg : ℚ)
  | springSecurity
  | llmLine (text : String)
deriving Repr, DecidableEq

/-- `key_components.get(k)` on the component map. -/
def compGet (comps : List (String × List String)) (k : String) :
    Option (List String) :=
  (comps.find? (fun kv => kv.1 = k)).map (fun kv => kv.2)

/-- Python truthiness of `d.get(k)` for a list-valued dict. -/
def truthyList : Option (List String) → Bool
  | some l => !l.isEmpty
  | none => false

/-- `_rule_based_analysis` (lines 146-199): the ordered append chain,
one conditional append per rule. -/
def ruleBased (stats : StatsSummary) (cx : CxSummary)
    (comps : List (String × List String)) : List Obs :=
  (if truthyList (compGet comps "controllers") &&
      truthyList (compGet comps "services") then
    [Obs.mvcArchitecture ((compGet comps "controllers").getD []).length
      ((compGet comps "services").getD []).length]
  else []) ++
  (if truthyList (compGet comps "entities") then
    [Obs.entityCount ((compGet comps "entities").getD []).length]
  else []) ++
  (match cx with
   | CxSummary.metrics m _ =>
     if m.average_complexity < 2 then [Obs.lowComplexity m.average_complexity]
     else if m.average_complexity > 5 then
       [Obs.highComplexityAvg m.average_complexity]
     else []
   | CxSummary.noData => []) ++
  (match cx with
   | CxSummary.metrics m _ =>
     if !m.high_complexity_files.isEmpty then
       [Obs.highComplexityFiles m.high_complexity_files.length]
     else []
   | CxSummary.noData => []) ++
  (if stats.total_lines < 3000 then [Obs.compactCodebase stats.total_lines]
   else if stats.total_lines > 10000 then [Obs.largeCodebase stats.total_lines]
   else []) ++
  (let avgM : ℚ := if stats.total_classes > 0 then
      (stats.total_methods : ℚ) / (stats.total_classes : ℚ) else 0
   if avgM < 3 then [Obs.fewMethodsPerClass avgM] else []) ++
  (if ((compGet comps "configurations").getD []).contains "WebSecurityConfig" then
    [Obs.springSecurity]
  else [])

/-- `AspectAnalyzer.identify` (lines 33-40).  `llm = none` models an absent
`llm_analyzer`; `llm = some resp` models a present analyzer whose
`_query_llm` outcome is `resp`.  A truthy (non-`None`, non-empty) parsed
list is returned as narrative output; otherwise the rule-based fallback. -/
def identifyAspects (llm : Option (Option String)) (stats : StatsSummary)
    (cx : CxSummary) (comps : List (String × List String)) : List Obs :=
  match llm with
  | some resp =>
    match getLLMInsights resp with
    | some aspects =>
      if aspects ≠ [] then aspects.map Obs.llmLine
      else ruleBased stats cx comps
    | none => ruleBased stats cx comps
  | none => ruleBased stats cx comps

/-! Spec-side rules a-g of §4.6, each an optional observation. -/

/-- Rule a: architecture note when controllers and services are non-empty. -/
def ruleA (comps : List (String × List String)) : Option Obs :=
  if (compGet comps "controllers").getD [] ≠ [] ∧
      (compGet comps "services").getD [] ≠ [] then
    some (Obs.mvcArchitecture ((compGet comps "controllers").getD []).length
      ((compGet comps "services").getD []).length)
  else none

/-- Rule b: entity-count note when entities are non-empty. -/
def ruleB (comps : List (String × List String)) : Option Obs :=
  if (compGet comps "entities").getD [] ≠ [] then
    some (Obs.entityCount ((compGet comps "entities").getD []).length)
  else none

/-- Rule c: when an average complexity is present, a maintainability note
below 2 and a refactor warning above 5. -/
def ruleC (cx : CxSummary) : Option Obs :=
  match cx with
  | CxSummary.metrics m _ =>
    if m.average_complexity < 2 then some (Obs.lowComplexity m.average_complexity)
    else if m.average_complexity > 5 then
      some (Obs.highComplexityAvg m.average_complexity)
    else none
  | CxSummary.noData => none

/-- Rule d: count of high-complexity files when any exist. -/
def ruleD (cx : CxSummary) : Option Obs :=
  match cx with
  | CxSummary.metrics m _ =>
    if m.high_complexity_files ≠ [] then
      some (Obs.highComplexityFiles m.high_complexity_files.length)
    else none
  | CxSummary.noData => none

/-- Rule e: compact-codebase note under 3000 lines, modularization note
over 10000. -/
def ruleE (stats : StatsSummary) : Option Obs :=
  if stats.total_lines < 3000 then some (Obs.compactCodebase stats.total_lines)
  else if stats.total_lines > 10000 then
    some (Obs.largeCodebase stats.total_lines)
  else none

/-- Rule f: single-responsibility note when the average number of business
methods per class is below 3 (0 when there are no classes). -/
def ruleF (stats : StatsSummary) : Option Obs :=
  let avgM : ℚ := if stats.total_classes > 0 then
    (stats.total_methods : ℚ) / (stats.total_classes : ℚ) else 0
  if avgM < 3 then some (Obs.fewMethodsPerClass avgM) else none

/-- Rule g: fixed security note when WebSecurityConfig is among the
configurations. -/
def ruleG (comps : List (String × List String)) : Option Obs :=
  if "WebSecurityConfig" ∈ (compGet comps "configurations").getD [] then
    some Obs.springSecurity
  else none

/-- The rule-based list as §4.6 words it: rules a-g applied in order, each
appending zero or one observation. -/
def ruleSpecList (stats : StatsSummary) (cx : CxSummary)
    (comps : List (String × List String)) : List Obs :=
  (ruleA comps).toList ++ (ruleB comps).toList ++ (ruleC cx).toList ++
  (ruleD cx).toList ++ (ruleE stats).toList ++ (ruleF stats).toList ++
  (ruleG comps).toList

/-- The narrative path of one `identify` invocation yielded no usable
aspect list: no analyzer, a failed call, or an empty parsed list. -/
def NarrativeUnusable (llm : Option (Option String)) : Prop :=
  llm = none ∨ ∃ resp, llm = some resp ∧
    (getLLMInsights resp = none ∨ getLLMInsights resp = some [])

/-! ## Concrete fixtures used by witnesses -/

/-- A business-logic controller method (scenario 1 of §8). -/
def sampleCreateOrder : MethodInfo :=
  { name := "createOrder"
    signature := "void createOrder(OrderRequest request)"
    is_business_logic := isBusinessLogicMethod "createOrder" [] 1 }

/-- A getter, excluded by the business-logic filter. -/
def sampleGetId : MethodInfo :=
  { name := "getId"
    signature := "Long getId()"
    is_business_logic := isBusinessLogicMethod "getId" [] 0 }

/-- A single-file fixture with one controller class. -/
def sampleFile : FileInfo :=
  { file_path := "OrderController.java"
    file_type := "java"
    total_lines := 120
    code_lines := 90
    classes := [{ name := "OrderController"
                  methods := [sampleCreateOrder, sampleGetId] }] }

/-- A file carrying a present-but-zero complexity score. -/
def zeroComplexityFile : FileInfo :=
  { file_path := "Empty.java"
    file_type := "java"
    complexity := some 0 }

/-- A file with no complexity score at all. -/
def noComplexityFile : FileInfo :=
  { file_path := "Plain.java"
    file_type := "java"
    complexity := none }

/-- The complexity multiset as claim C5 words it: every present score. -/
def presentScores (files : List FileInfo) : List ℚ :=
  files.filterMap (fun f => f.complexity)

/-! ## Helper lemmas -/

theorem updateAssoc_keys (m : List (String × List String)) (k n : String) :
    (updateAssoc m k n).map (fun kv => kv.1) = m.map (fun kv => kv.1) := by
  induction m with
  | nil => rfl
  | cons a rest ih =>
    obtain ⟨a1, a2⟩ := a
    by_cases h : a1 = k <;> simp [updateAssoc, h, ih]

theorem classifyStep_keys (pkg : Option String)
    (m : List (String × List String)) (cls : ClassInfo) :
    (classifyStep pkg m cls).map (fun kv => kv.1) = m.map (fun kv => kv.1) := by
  unfold classifyStep
  repeat' split
  all_goals first | rfl | simp [updateAssoc_keys]

theorem foldl_classifyStep_keys (classes : List ClassInfo) (pkg : Option String)
    (m : List (String × List String)) :
    ((classes.foldl (classifyStep pkg) m).map (fun kv => kv.1)) =
      m.map (fun kv => kv.1) := by
  induction classes generalizing m with
  | nil => rfl
  | cons c rest ih => simp [List.foldl_cons, ih, classifyStep_keys]

/-! ## Claims -/

/-- C10: for every input file list the component map returned by the
classifier has exactly the five keys controllers, services, repositories,
entities, configurations, in that order — none missing, none extra. -/
theorem componentMap_has_exactly_five_keys (files : List FileInfo) :
    (identifyComponents files).map (fun kv => kv.1) =
      ["controllers", "services", "repositories", "entities", "configurations"] := by
  unfold identifyComponents
  have h : ∀ (fs : List FileInfo) (m : List (String × List String)),
      ((fs.foldl (fun m file => file.classes.foldl (classifyStep file.package) m)
        m).map (fun kv => kv.1)) = m.map (fun kv => kv.1) := by
    intro fs
    induction fs with
    | nil => intro m; rfl
    | cons f rest ih =>
      intro m
      simp [List.foldl_cons, ih, foldl_classifyStep_keys]
  rw [h]
  rfl

/-- C2: the name-based exclusion rules of the business-logic filter
dominate every annotation- and keyword-based inclusion: a `get`-named
0-parameter, `set`-named 1-parameter, or `is`-named 0-parameter method,
or one named in the fixed utility set, is never business logic. -/
theorem nameExclusions_dominate (name : String) (annotations : List String)
    (paramCount : Nat)
    (h : (pyStartsWith name "get" ∧ paramCount = 0) ∨
         (pyStartsWith name "set" ∧ paramCount = 1) ∨
         (pyStartsWith name "is" ∧ paramCount = 0) ∨
         name ∈ utilityMethods) :
    isBusinessLogicMethod name annotations paramCount = false := by
  unfold isBusinessLogicMethod
  rcases h with ⟨h1, h2⟩ | ⟨h1, h2⟩ | ⟨h1, h2⟩ | h1 <;>
    repeat' split <;> simp_all

/-- Witness for C2: a method whose name contains business keywords and
which carries a business annotation is still excluded by the getter rule. -/
theorem nameExclusions_dominate_witness :
    ((pyStartsWith "getFetchSave" "get" ∧ 0 = 0) ∨
     ((pyStartsWith "getFetchSave" "set" ∧ 0 = 1) ∨
      (pyStartsWith "getFetchSave" "is" ∧ 0 = 0) ∨
      "getFetchSave" ∈ utilityMethods)) ∧
    isBusinessLogicMethod "getFetchSave" ["PostMapping"] 0 = false := by
  refine ⟨Or.inl ⟨by decide, rfl⟩, ?_⟩
  exact nameExclusions_dominate "getFetchSave" ["PostMapping"] 0
    (Or.inl ⟨by decide, rfl⟩)

/-- C4: when no file contributes a complexity value, the complexity
aggregator returns the distinct "no data" marker and performs zero
narrative-service invocations. -/
theorem complexity_noData_no_llm (files : List FileInfo)
    (llm : Option (CxMetrics → Option String))
    (h : collectComplexities files = []) :
    analyzeComplexity files llm = (CxSummary.noData, 0) := by
  unfold analyzeComplexity
  rw [h]

/-- Witness for C4: files with an absent score and a zero score contribute
nothing, and the analyzer returns the marker without calling its oracle. -/
theorem complexity_noData_no_llm_witness :
    collectComplexities [noComplexityFile, zeroComplexityFile] = [] ∧
    analyzeComplexity [noComplexityFile, zeroComplexityFile]
      (some (fun _ => some "interpretation")) = (CxSummary.noData, 0) := by
  refine ⟨by decide, ?_⟩
  exact complexity_noData_no_llm _ _ (by decide)

/-- C5 counterexample: a present complexity score equal to zero IS skipped
(Python truthiness), so the collected multiset is not the multiset of all
present scores. -/
theorem collect_skips_present_zero :
    collectComplexities [zeroComplexityFile] ≠ presentScores [zeroComplexityFile] := by
  decide

/-- C5 (amended): the collected multiset is exactly the present AND
non-zero scores, in file order; a present zero is treated as absent. -/
theorem collect_eq_present_nonzero (files : List FileInfo) :
    collectComplexities files =
      files.filterMap (fun f => f.complexity.bind
        (fun c => if c = 0 then none else some c)) := by
  induction files with
  | nil => rfl
  | cons f rest ih =>
    unfold collectComplexities at ih ⊢
    cases hc : f.complexity with
    | none =>
      simp only [List.filter_cons, hc, List.filterMap_cons, Option.bind]
      exact ih
    | some c =>
      by_cases h0 : c = 0 <;>
        simp_all [List.filter_cons, List.filterMap_cons, hc, h0]

theorem classifyStep_eq_specStep (pkg : Option String)
    (m : List (String × List String)) (cls : ClassInfo) :
    classifyStep pkg m cls = specStep pkg m cls := by
  have e : classifyFirst pkg cls =
      (if pyIn "Controller" cls.name || cls.annotations.contains "Controller" then
        some Role.controllers
      else if pyIn "Service" cls.name || cls.annotations.contains "Service" then
        some Role.services
      else if pyIn "Repository" cls.name || cls.annotations.contains "Repository" then
        some Role.repositories
      else if cls.annotations.contains "Entity" ||
          (match pkg with | some p => pyIn "entities" p | none => false) then
        some Role.entities
      else if cls.annotations.contains "Configuration" || pyIn "Config" cls.name then
        some Role.configurations
      else none) := by
    unfold classifyFirst roleOrder
    simp only [List.find?, rolePred]
    repeat' split
    all_goals simp_all
  unfold classifyStep specStep
  rw [e]
  clear e
  by_cases h1 : pyIn "Controller" cls.name = true ∨ "Controller" ∈ cls.annotations
  · simp [h1, Role.key]
  · by_cases h2 : pyIn "Service" cls.name = true ∨ "Service" ∈ cls.annotations
    · simp [h1, h2, Role.key]
    · by_cases h3 : pyIn "Repository" cls.name = true ∨ "Repository" ∈ cls.annotations
      · simp [h1, h2, h3, Role.key]
      · by_cases h4 : "Entity" ∈ cls.annotations ∨
            (match pkg with | some p => pyIn "entities" p | none => false) = true
        · simp [h1, h2, h3, h4, Role.key]
        · by_cases h5 : "Configuration" ∈ cls.annotations ∨ pyIn "Config" cls.name = true
          · simp [h1, h2, h3, h4, h5, Role.key]
          · simp [h1, h2, h3, h4, h5]

theorem updateAssoc_total (m : List (String × List String)) (k n : String)
    (hk : k ∈ m.map (fun kv => kv.1)) :
    totalEntries (updateAssoc m k n) = totalEntries m + 1 := by
  induction m with
  | nil => simp at hk
  | cons a rest ih =>
    obtain ⟨a1, a2⟩ := a
    by_cases h : a1 = k
    · simp only [updateAssoc, if_pos h, totalEntries, List.map_cons,
        List.sum_cons, List.length_append, List.length_cons, List.length_nil]
      omega
    · have hk' : k ∈ rest.map (fun kv => kv.1) := by
        simp only [List.map_cons, List.mem_cons] at hk
        rcases hk with h1 | h1
        · exact absurd h1.symm h
        · exact h1
      have hrec := ih hk'
      simp only [updateAssoc, if_neg h, totalEntries, List.map_cons,
        List.sum_cons] at hrec ⊢
      omega

theorem specStep_keys (pkg : Option String)
    (m : List (String × List String)) (cls : ClassInfo) :
    (specStep pkg m cls).map (fun kv => kv.1) = m.map (fun kv => kv.1) := by
  rw [← classifyStep_eq_specStep]
  exact classifyStep_keys pkg m cls

theorem specStep_total (pkg : Option String)
    (m : List (String × List String)) (cls : ClassInfo)
    (hkeys : m.map (fun kv => kv.1) =
      ["controllers", "services", "repositories", "entities", "configurations"]) :
    totalEntries (specStep pkg m cls) =
      totalEntries m + (if (classifyFirst pkg cls).isSome then 1 else 0) := by
  unfold specStep
  cases hr : classifyFirst pkg cls with
  | none => simp
  | some r =>
    have hk : r.key ∈ m.map (fun kv => kv.1) := by
      rw [hkeys]
      cases r <;> simp [Role.key]
    simp [updateAssoc_total m r.key cls.name hk]

theorem foldl_specStep_total (classes : List ClassInfo) (pkg : Option String)
    (m : List (String × List String))
    (hkeys : m.map (fun kv => kv.1) =
      ["controllers", "services", "repositories", "entities", "configurations"]) :
    totalEntries (classes.foldl (specStep pkg) m) =
      totalEntries m +
        (classes.filter (fun c => (classifyFirst pkg c).isSome)).length := by
  induction classes generalizing m with
  | nil => simp
  | cons c rest ih =>
    have hkeys' : (specStep pkg m c).map (fun kv => kv.1) =
        ["controllers", "services", "repositories", "entities", "configurations"] := by
      rw [specStep_keys, hkeys]
    simp only [List.foldl_cons, ih (specStep pkg m c) hkeys',
      specStep_total pkg m c hkeys, List.filter_cons]
    by_cases h : (classifyFirst pkg c).isSome <;> (simp [h]; try ring)

/-- C1: the classifier evaluates the five role predicates in the fixed
order controllers, services, repositories, entities, configurations,
assigns every class occurrence to the first matching role only (omitting
non-matching classes), and therefore the buckets together hold exactly one
entry per classified class occurrence. -/
theorem classifier_first_match (files : List FileInfo) :
    identifyComponents files = specIdentify files ∧
    totalEntries (identifyComponents files) = classifiedCount files := by
  have hfun : classifyStep = specStep := by
    funext pkg m cls
    exact classifyStep_eq_specStep pkg m cls
  have hid : identifyComponents files = specIdentify files := by
    unfold identifyComponents specIdentify
    rw [hfun]
  refine ⟨hid, ?_⟩
  rw [hid]
  unfold specIdentify classifiedCount
  have main : ∀ (fs : List FileInfo) (m : List (String × List String)),
      m.map (fun kv => kv.1) =
        ["controllers", "services", "repositories", "entities", "configurations"] →
      totalEntries (fs.foldl
        (fun m file => file.classes.foldl (specStep file.package) m) m) =
        totalEntries m + (fs.map (fun f =>
          (f.classes.filter (fun c => (classifyFirst f.package c).isSome)).length)).sum := by
    intro fs
    induction fs with
    | nil => intro m _; simp
    | cons f rest ih =>
      intro m hkeys
      have hkeys' : (f.classes.foldl (specStep f.package) m).map (fun kv => kv.1) =
          ["controllers", "services", "repositories", "entities", "configurations"] := by
        have h : ∀ (cs : List ClassInfo) (m' : List (String × List String)),
            m'.map (fun kv => kv.1) =
              ["controllers", "services", "repositories", "entities", "configurations"] →
            (cs.foldl (specStep f.package) m').map (fun kv => kv.1) =
              ["controllers", "services", "repositories", "entities", "configurations"] := by
          intro cs
          induction cs with
          | nil => intro m' hm'; exact hm'
          | cons c cs ih' =>
            intro m' hm'
            simp only [List.foldl_cons]
            exact ih' _ (by rw [specStep_keys, hm'])
        exact h f.classes m hkeys
      simp only [List.foldl_cons, List.map_cons, List.sum_cons,
        ih (f.classes.foldl (specStep f.package) m) hkeys',
        foldl_specStep_total f.classes f.package m hkeys]
      ring
  have := main files initComponents (by rfl)
  rw [this]
  simp [totalEntries, initComponents]

theorem sum_countP_flatMap {α β : Type} (p : β → Bool) (g : α → List β)
    (l : List α) :
    (l.map (fun x => (g x).countP p)).sum = (l.flatMap g).countP p := by
  induction l with
  | nil => rfl
  | cons x rest ih => simp [List.flatMap_cons, List.countP_append, ih]

theorem classes_count_flatten (classes : List ClassInfo) :
    (classes.map (fun c =>
      (c.methods.filter (fun m => m.is_business_logic)).length)).sum =
      (classes.flatMap (fun c => c.methods)).countP (fun m => m.is_business_logic) := by
  rw [← sum_countP_flatMap]
  simp [← List.countP_eq_length_filter]

theorem files_count_flatten (files : List FileInfo) :
    (files.map (fun f =>
      (f.classes.map (fun c =>
        (c.methods.filter (fun m => m.is_business_logic)).length)).sum)).sum =
      ((files.flatMap (fun f => f.classes)).flatMap (fun c => c.methods)).countP
        (fun m => m.is_business_logic) := by
  calc (files.map (fun f =>
        (f.classes.map (fun c =>
          (c.methods.filter (fun m => m.is_business_logic)).length)).sum)).sum
      = (files.map (fun f =>
          (f.classes.flatMap (fun c => c.methods)).countP
            (fun m => m.is_business_logic))).sum := by
        simp only [classes_count_flatten]
    _ = (files.flatMap (fun f => f.classes.flatMap (fun c => c.methods))).countP
          (fun m => m.is_business_logic) :=
        sum_countP_flatMap _ _ _
    _ = ((files.flatMap (fun f => f.classes)).flatMap (fun c => c.methods)).countP
          (fun m => m.is_business_logic) := by
        rw [List.flatMap_assoc]

/-- C3: the statistics aggregator computes average file size as total
lines floor-divided by total files and average methods-per-class as the
business-logic method count floor-divided by total classes, yielding 0
(not an error) whenever a divisor is zero, and its method count is exactly
the number of methods flagged `is_business_logic`. -/
theorem statistics_averages_and_method_count (files : List FileInfo) :
    (calculate files).average_file_size =
      (files.map (fun f => f.total_lines)).sum / files.length ∧
    (files.length = 0 → (calculate files).average_file_size = 0) ∧
    (calculate files).average_methods_per_class =
      (calculate files).total_methods / (files.map (fun f => f.classes.length)).sum ∧
    ((files.map (fun f => f.classes.length)).sum = 0 →
      (calculate files).average_methods_per_class = 0) ∧
    (calculate files).total_methods =
      ((files.flatMap (fun f => f.classes)).flatMap (fun c => c.methods)).countP
        (fun m => m.is_business_logic) := by
  refine ⟨?_, ?_, ?_, ?_, ?_⟩
  · by_cases h : files.length > 0
    · simp [calculate, h]
    · have h0 : files.length = 0 := by omega
      simp [calculate, h0]
  · intro h0
    simp [calculate, h0]
  · by_cases h : (files.map (fun f => f.classes.length)).sum > 0
    · simp [calculate, h]
    · have h0 : (files.map (fun f => f.classes.length)).sum = 0 := by omega
      simp [calculate, h0]
  · intro h0
    simp [calculate, h0]
  · simpa [calculate] using files_count_flatten files

/-- Witness for C3: on the empty corpus both averages are 0 and the method
count is 0. -/
theorem statistics_averages_witness :
    (calculate []).average_file_size = 0 ∧
    (calculate []).average_methods_per_class = 0 := by
  exact ⟨(statistics_averages_and_method_count []).2.1 rfl,
    (statistics_averages_and_method_count []).2.2.2.1 rfl⟩

/-- C7: a per-method failure of the narrative describeMethod call never
removes entries or aborts extraction: for any oracle, the extractor emits
exactly the entries of the description-free skeleton, each filled with
exactly the oracle's (possibly absent) result for that method. -/
theorem extract_isolates_describe_failures (files : List FileInfo)
    (comps : List (String × List String)) (llm : DescOracle) :
    extractKeyMethods files comps llm =
      (extractKeyMethods files comps (fun _ _ _ => none)).map
        (fun s => { s with description := llm s.signature s.class_name s.annotations }) := by
  unfold extractKeyMethods
  induction files with
  | nil => rfl
  | cons f rest ih =>
    simp only [List.flatMap_cons, List.map_append, ih]
    congr 1
    induction f.classes with
    | nil => rfl
    | cons c cs ihc =>
      simp only [List.flatMap_cons, List.map_append, ihc]
      congr 1
      by_cases hrole : dictGet (buildTypeMap comps) c.name = some "controllers" ∨
          dictGet (buildTypeMap comps) c.name = some "services"
      · simp only [if_pos hrole]
        induction c.methods with
        | nil => rfl
        | cons mth ms ihm =>
          simp only [List.flatMap_cons, List.map_append, ihm]
          congr 1
          by_cases hb : mth.is_business_logic = true
          · simp [hb]
          · simp [hb]
      · simp only [if_neg hrole, List.map_nil]

theorem dictGet_dictPut (m : List (String × String)) (k v n : String) :
    dictGet (dictPut m k v) n = if n = k then some v else dictGet m n := by
  induction m with
  | nil =>
    by_cases hn : n = k
    · subst hn
      simp [dictPut, dictGet]
    · have hn' : ¬k = n := fun hh => hn hh.symm
      simp [dictPut, dictGet, hn, hn']
  | cons a rest ih =>
    obtain ⟨a1, a2⟩ := a
    by_cases h : a1 = k
    · subst h
      by_cases hn : a1 = n
      · subst hn
        simp [dictPut, dictGet]
      · have hn' : ¬n = a1 := fun hh => hn hh.symm
        simp [dictPut, dictGet, hn, hn']
    · by_cases hn : a1 = n
      · subst hn
        have hnk : ¬a1 = k := h
        simp [dictPut, dictGet, h, hnk]
      · simp [dictPut, dictGet, h, hn, ih]

theorem dictGet_insertAll (l : List String) (m : List (String × String))
    (k n : String) :
    dictGet (l.foldl (fun m name => dictPut m name k) m) n =
      if n ∈ l then some k else dictGet m n := by
  induction l generalizing m with
  | nil => simp
  | cons a rest ih =>
    simp only [List.foldl_cons, ih, dictGet_dictPut, List.mem_cons]
    by_cases hr : n ∈ rest
    · simp [hr]
    · by_cases ha : n = a <;> simp [hr, ha]

theorem roleIn_some (comps : List (String × List String)) (n k : String)
    (h : roleIn comps n = some k) : ∃ p ∈ comps, p.1 = k ∧ n ∈ p.2 := by
  induction comps with
  | nil => simp [roleIn] at h
  | cons a rest ih =>
    cases hc : a.2.contains n with
    | true =>
      simp only [roleIn, hc, if_true] at h
      exact ⟨a, by simp, Option.some.inj h, by simpa using hc⟩
    | false =>
      simp only [roleIn, hc, Bool.false_eq_true, if_false] at h
      obtain ⟨p, hp, hk, hn⟩ := ih h
      exact ⟨p, by simp [hp], hk, hn⟩

theorem buildTypeMap_aux (comps : List (String × List String))
    (m : List (String × String)) (n : String)
    (hwf : ∀ p ∈ comps, ∀ q ∈ comps, ∀ x ∈ p.2, x ∈ q.2 → p = q) :
    dictGet (comps.foldl (fun m kv =>
      kv.2.foldl (fun m name => dictPut m name kv.1) m) m) n =
      (match roleIn comps n with
       | some k => some k
       | none => dictGet m n) := by
  induction comps generalizing m with
  | nil => simp [roleIn]
  | cons a rest ih =>
    have hwf' : ∀ p ∈ rest, ∀ q ∈ rest, ∀ x ∈ p.2, x ∈ q.2 → p = q := by
      intro p hp q hq x hx hx'
      exact hwf p (by simp [hp]) q (by simp [hq]) x hx hx'
    simp only [List.foldl_cons, ih _ hwf']
    cases hr : roleIn rest n with
    | some k =>
      obtain ⟨q, hq, hqk, hqn⟩ := roleIn_some rest n k hr
      by_cases hmem : n ∈ a.2
      · have haq : a = q := hwf a (by simp) q (by simp [hq]) n hmem hqn
        have hc : a.2.contains n = true := by simpa using hmem
        simp only [roleIn, hc, if_true]
        rw [haq, hqk]
      · have hc : a.2.contains n = false := by simpa using hmem
        simp [roleIn, hc, hr, hmem]
    | none =>
      by_cases hmem : n ∈ a.2
      · have hc : a.2.contains n = true := by simpa using hmem
        simp [roleIn, hc, hr, dictGet_insertAll, hmem]
      · have hc : a.2.contains n = false := by simpa using hmem
        simp [roleIn, hc, hr, dictGet_insertAll, hmem]

theorem typeMap_eq_roleIn (comps : List (String × List String)) (n : String)
    (hwf : WellFormedComponents comps) :
    dictGet (buildTypeMap comps) n = roleIn comps n := by
  unfold buildTypeMap
  rw [buildTypeMap_aux comps [] n hwf]
  cases hr : roleIn comps n <;> simp [dictGet]

theorem flatMap_if_filter {α β : Type} (p : α → Bool) (g : α → β)
    (l : List α) :
    l.flatMap (fun x => if p x then [g x] else []) = (l.filter p).map g := by
  induction l with
  | nil => rfl
  | cons x rest ih =>
    by_cases h : p x <;> simp [List.flatMap_cons, List.filter_cons, h, ih]

/-- C6: for a well-formed ComponentMap the extractor emits exactly one
summary per business-logic method of each class whose role is controllers
or services (repositories, entities, configurations and unclassified
classes contribute nothing), in file, class, method order. -/
theorem extractor_selects_controller_service_methods (files : List FileInfo)
    (comps : List (String × List String)) (llm : DescOracle)
    (hwf : WellFormedComponents comps) :
    extractKeyMethods files comps llm = specExtract files comps llm := by
  unfold extractKeyMethods specExtract
  have hg : ∀ n, dictGet (buildTypeMap comps) n = roleIn comps n :=
    fun n => typeMap_eq_roleIn comps n hwf
  simp only [hg, flatMap_if_filter]

/-- Witness for C6: a concrete well-formed map produced by the classifier,
on which the extractor agrees with the spec-side selection. -/
theorem extractor_selects_witness :
    WellFormedComponents (identifyComponents [sampleFile]) ∧
    extractKeyMethods [sampleFile] (identifyComponents [sampleFile])
        (fun _ _ _ => some "creates a new order") =
      specExtract [sampleFile] (identifyComponents [sampleFile])
        (fun _ _ _ => some "creates a new order") := by
  have hwf : WellFormedComponents (identifyComponents [sampleFile]) := by
    unfold WellFormedComponents
    decide
  exact ⟨hwf, extractor_selects_controller_service_methods _ _ _ hwf⟩

/-- C8 counterexample: a response that is a single stripped line of exactly
20 characters is discarded by the parser (the code keeps only lines
STRICTLY longer than 20 characters), while the claim says a 20-character
line is kept. -/
theorem parse_discards_twenty_char_line :
    parseResponse "aaaaaaaaaaaaaaaaaaaa" ≠ claimParse "aaaaaaaaaaaaaaaaaaaa" := by
  decide

/-- C8 (amended): a parsed aspect line is kept iff it comes from a split
line that is non-blank, does not start with `#` after whitespace-stripping,
and whose bullet- and whitespace-stripped form is STRICTLY longer than 20
characters (a line of exactly 20 characters is discarded). -/
theorem parse_keeps_iff (response a : String) :
    a ∈ parseResponse response ↔
    ∃ l ∈ splitNl (pyStrip response.data),
      pyStrip l ≠ [] ∧ (pyStrip l).head? ≠ some '#' ∧
      a.data = pyStrip (pyStripChars bulletChars l) ∧ 20 < a.data.length := by
  obtain ⟨ad⟩ := a
  simp only [parseResponse, List.mem_map, List.mem_filter, Bool.and_eq_true,
    Bool.not_eq_true', decide_eq_true_eq]
  constructor
  · rintro ⟨x, ⟨⟨l, ⟨hl, hq⟩, rfl⟩, hlen⟩, heq⟩
    injection heq with heq
    subst heq
    refine ⟨l, hl, ?_, ?_, rfl, hlen⟩
    · simpa using hq.1
    · simpa using hq.2
  · rintro ⟨l, hl, h1, h2, hdata, hlen⟩
    refine ⟨ad, ⟨⟨l, ⟨hl, ?_, ?_⟩, hdata.symm⟩, ?_⟩, rfl⟩
    · simpa using h1
    · simpa using h2
    · exact hlen

theorem segA (comps : List (String × List String)) :
    (if truthyList (compGet comps "controllers") &&
        truthyList (compGet comps "services") then
      [Obs.mvcArchitecture ((compGet comps "controllers").getD []).length
        ((compGet comps "services").getD []).length]
    else []) = (ruleA comps).toList := by
  cases hc : compGet comps "controllers" with
  | none => simp [truthyList, ruleA, hc]
  | some l1 =>
    cases hs : compGet comps "services" with
    | none => simp [truthyList, ruleA, hc, hs]
    | some l2 =>
      by_cases h1 : l1 = [] <;> by_cases h2 : l2 = [] <;>
        simp [truthyList, ruleA, hc, hs, h1, h2]

theorem segB (comps : List (String × List String)) :
    (if truthyList (compGet comps "entities") then
      [Obs.entityCount ((compGet comps "entities").getD []).length]
    else []) = (ruleB comps).toList := by
  cases he : compGet comps "entities" with
  | none => simp [truthyList, ruleB, he]
  | some l =>
    by_cases h : l = [] <;> simp [truthyList, ruleB, he, h]

theorem segC (cx : CxSummary) :
    (match cx with
     | CxSummary.metrics m _ =>
       if m.average_complexity < 2 then [Obs.lowComplexity m.average_complexity]
       else if m.average_complexity > 5 then
         [Obs.highComplexityAvg m.average_complexity]
       else []
     | CxSummary.noData => []) = (ruleC cx).toList := by
  cases cx with
  | noData => rfl
  | metrics m i =>
    by_cases h1 : m.average_complexity < 2
    · simp [ruleC, h1]
    · by_cases h2 : m.average_complexity > 5 <;> simp [ruleC, h1, h2]

theorem segD (cx : CxSummary) :
    (match cx with
     | CxSummary.metrics m _ =>
       if !m.high_complexity_files.isEmpty then
         [Obs.highComplexityFiles m.high_complexity_files.length]
       else []
     | CxSummary.noData => []) = (ruleD cx).toList := by
  cases cx with
  | noData => rfl
  | metrics m i =>
    by_cases h : m.high_complexity_files = [] <;> simp [ruleD, h]

theorem segE (stats : StatsSummary) :
    (if stats.total_lines < 3000 then [Obs.compactCodebase stats.total_lines]
     else if stats.total_lines > 10000 then [Obs.largeCodebase stats.total_lines]
     else []) = (ruleE stats).toList := by
  by_cases h1 : stats.total_lines < 3000
  · simp [ruleE, h1]
  · by_cases h2 : stats.total_lines > 10000 <;> simp [ruleE, h1, h2]

theorem segF (stats : StatsSummary) :
    (let avgM : ℚ := if stats.total_classes > 0 then
        (stats.total_methods : ℚ) / (stats.total_classes : ℚ) else 0
     if avgM < 3 then [Obs.fewMethodsPerClass avgM] else []) =
      (ruleF stats).toList := by
  unfold ruleF
  by_cases h : (if stats.total_classes > 0 then
      (stats.total_methods : ℚ) / (stats.total_classes : ℚ) else 0) < 3 <;>
    simp [h]

theorem segG (comps : List (String × List String)) :
    (if ((compGet comps "configurations").getD []).contains "WebSecurityConfig" then
      [Obs.springSecurity]
    else []) = (ruleG comps).toList := by
  by_cases h : "WebSecurityConfig" ∈ (compGet comps "configurations").getD [] <;>
    simp [ruleG, h]

theorem ruleBased_eq_ruleSpecList (stats : StatsSummary) (cx : CxSummary)
    (comps : List (String × List String)) :
    ruleBased stats cx comps = ruleSpecList stats cx comps := by
  unfold ruleBased ruleSpecList
  rw [segA, segB, segC, segD, segE, segF, segG]

/-- C9: whenever the narrative path yields no usable aspect list, the
aspect identifier returns exactly the rule-based list given by rules a-g
applied in order (each appending zero or one observation); and every
invocation returns either that rule-based list or the narrative list
unchanged — the two are never merged. -/
theorem aspects_fallback_exclusive (llm : Option (Option String))
    (stats : StatsSummary) (cx : CxSummary)
    (comps : List (String × List String)) :
    (NarrativeUnusable llm →
      identifyAspects llm stats cx comps = ruleSpecList stats cx comps) ∧
    (identifyAspects llm stats cx comps = ruleSpecList stats cx comps ∨
      ∃ resp l, llm = some resp ∧ getLLMInsights resp = some l ∧ l ≠ [] ∧
        identifyAspects llm stats cx comps = l.map Obs.llmLine) := by
  cases llm with
  | none =>
    refine ⟨fun _ => ?_, Or.inl ?_⟩ <;>
      simp [identifyAspects, ruleBased_eq_ruleSpecList]
  | some resp =>
    cases hi : getLLMInsights resp with
    | none =>
      refine ⟨fun _ => ?_, Or.inl ?_⟩ <;>
        simp [identifyAspects, hi, ruleBased_eq_ruleSpecList]
    | some aspects =>
      by_cases ha : aspects = []
      · subst ha
        refine ⟨fun _ => ?_, Or.inl ?_⟩ <;>
          simp [identifyAspects, hi, ruleBased_eq_ruleSpecList]
      · constructor
        · intro hn
          rcases hn with h | ⟨r, hr, hcase⟩
          · exact absurd h (by simp)
          · have hrr : r = resp := by
              injection hr with h'
              exact h'.symm
            subst hrr
            rcases hcase with h' | h' <;> rw [hi] at h'
            · exact absurd h' (by simp)
            · exact absurd (Option.some.inj h') ha
        · right
          exact ⟨resp, aspects, rfl, hi, ha, by simp [identifyAspects, hi, ha]⟩

/-- Witness for C9: with no narrative analyzer at all, the identifier
returns exactly the a-g rule list on concrete inputs. -/
theorem aspects_fallback_witness :
    NarrativeUnusable none ∧
    identifyAspects none (calculate [sampleFile]) CxSummary.noData
        (identifyComponents [sampleFile]) =
      ruleSpecList (calculate [sampleFile]) CxSummary.noData
        (identifyComponents [sampleFile]) :=
  ⟨Or.inl rfl,
    (aspects_fallback_exclusive none (calculate [sampleFile]) CxSummary.noData
      (identifyComponents [sampleFile])).1 (Or.inl rfl)⟩

end CodebaseAnalyzer
